import Mathlib

/-!
Shallow embedding of the core DAT parsing / region-extraction / filtering
engine of the redump-dat-filter repository (the module that exports
parseDat and filterDatByRegions), together with theorems settling the
frozen claims about it.

Conventions of the embedding:
* JavaScript strings are Lean String; most character-level work happens on
  List Char so definitions reduce inside the kernel.
* TS Map / Set lookup tables become association lists / lists with
  first-insertion-order deduplication (jsDedup), matching JS Set iteration
  order.
* Fallible TS functions that throw become Except String; nullable values
  become Option.
* Regular-expression use in the source is small and closed: each regex is
  translated into an explicit scanning function whose behaviour on the
  relevant character classes matches the JS engine (greedy / lazy
  backtracking reasoned out case by case; comments at each definition).
* The xml re-serialization and filename derivation of the source are not
  referenced by any claim; the FilteredDatResult embedding carries the
  header, kept games and summary, omitting the serialized xml text and
  suggested filename fields.
-/

deriving instance DecidableEq for Except

namespace DatFilter

/-- Characters matched by the JavaScript regex class backslash-s, restricted
to the ASCII range (all inputs and tables relevant to the claims are
ASCII). -/
def isJsWs (c : Char) : Bool :=
  c = ' ' || c = '\t' || c = '\n' || c = '\r' || c = '\x0b' || c = '\x0c'

/-- ASCII lower-casing of one character (models toLowerCase on the ASCII
vocabulary used by the region tables). -/
def toLowerAscii (c : Char) : Char :=
  if 65 ≤ c.toNat ∧ c.toNat ≤ 90 then Char.ofNat (c.toNat + 32) else c

/-- ASCII lower-casing of a string. -/
def lowerStr (s : String) : String :=
  String.mk (s.data.map toLowerAscii)

/-- JavaScript String.prototype.trim on a character list. -/
def trimChars (l : List Char) : List Char :=
  ((l.dropWhile isJsWs).reverse.dropWhile isJsWs).reverse

/-- JavaScript String.prototype.trim. -/
def trimStr (s : String) : String :=
  String.mk (trimChars s.data)

/-- First-insertion-order deduplication with an accumulator of already seen
elements; models the observable contents of a JS Set built by inserting the
list elements in order. -/
def jsDedupAux : List String → List String → List String
  | _, [] => []
  | seen, a :: l =>
    if a ∈ seen then jsDedupAux seen l else a :: jsDedupAux (a :: seen) l

/-- Deduplicate keeping the first occurrence of each element, like
Array.from applied to a JS Set built from the list. -/
def jsDedup (l : List String) : List String :=
  jsDedupAux [] l

/-- The fixed synonym table REGION_SYNONYMS of the source, in source
order. -/
def REGION_SYNONYMS : List (String × String) := [
  ("world", "World"),
  ("worldwide", "World"),
  ("usa", "USA"),
  ("u.s.a.", "USA"),
  ("us", "USA"),
  ("u.s.", "USA"),
  ("north america", "USA"),
  ("europe", "Europe"),
  ("eur", "Europe"),
  ("pal", "Europe"),
  ("japan", "Japan"),
  ("jpn", "Japan"),
  ("asia", "Asia"),
  ("asia pacific", "Asia"),
  ("asia-pacific", "Asia"),
  ("australia", "Australia"),
  ("australasia", "Australia"),
  ("brazil", "Brazil"),
  ("canada", "Canada"),
  ("china", "China"),
  ("denmark", "Denmark"),
  ("finland", "Finland"),
  ("france", "France"),
  ("germany", "Germany"),
  ("hong kong", "Hong Kong"),
  ("italy", "Italy"),
  ("korea", "Korea"),
  ("south korea", "Korea"),
  ("republic of korea", "Korea"),
  ("mexico", "Mexico"),
  ("netherlands", "Netherlands"),
  ("new zealand", "New Zealand"),
  ("norway", "Norway"),
  ("russia", "Russia"),
  ("spain", "Spain"),
  ("sweden", "Sweden"),
  ("switzerland", "Switzerland"),
  ("taiwan", "Taiwan"),
  ("uk", "United Kingdom"),
  ("united kingdom", "United Kingdom"),
  ("england", "United Kingdom"),
  ("ireland", "Ireland"),
  ("poland", "Poland"),
  ("portugal", "Portugal"),
  ("belgium", "Belgium"),
  ("greece", "Greece"),
  ("czech republic", "Czech Republic"),
  ("south africa", "South Africa"),
  ("latin america", "Latin America"),
  ("middle east", "Middle East"),
  ("africa", "Africa"),
  ("asia minor", "Asia"),
  ("united states", "USA")]

/-- The sentinel region label used for entries with no detected regions. -/
def DEFAULT_REGION : String := "Unknown"

/-- CANONICAL_REGIONS of the source: the distinct synonym-table values, in
first-insertion order, with DEFAULT_REGION added at the end. -/
def CANONICAL_REGIONS : List String :=
  jsDedup (REGION_SYNONYMS.map Prod.snd) ++ [DEFAULT_REGION]

/-- Remove every period, modelling replace of one-or-more periods by the
empty string. -/
def removeDots (l : List Char) : List Char :=
  l.filter (fun c => c ≠ '.')

/-- Replace every maximal run of whitespace by a single space, modelling
replace of the regex backslash-s-plus by one space. -/
def squeezeWs : List Char → List Char
  | [] => []
  | [c] => [if isJsWs c then ' ' else c]
  | c :: c2 :: cs =>
    if isJsWs c ∧ isJsWs c2 then squeezeWs (c2 :: cs)
    else (if isJsWs c then ' ' else c) :: squeezeWs (c2 :: cs)

/-- The cleaning step of normalizeRegionToken: strip periods, collapse
whitespace, trim. -/
def cleanToken (s : String) : String :=
  String.mk (trimChars (squeezeWs (removeDots s.data)))

/-- normalizeRegionToken of the source. The TS function also receives
undefined, which behaves like the empty string here (callers pass the empty
string for missing values). -/
def normalizeRegionToken (token : String) : Option String :=
  if token = "" then none
  else
    let cleaned := cleanToken token
    if cleaned = "" then none
    else
      match REGION_SYNONYMS.lookup (lowerStr cleaned) with
      | some synonym => some synonym
      | none => if cleaned ∈ CANONICAL_REGIONS then some cleaned else none

/-- The separator characters of the first split in tokenizeRegionSegment. -/
def isSepChar (c : Char) : Bool :=
  c = '/' || c = ',' || c = '&'

/-- JS String.prototype.split on a single-character class: n separators
yield n+1 pieces (empty pieces included). -/
def splitCharClass (p : Char → Bool) : List Char → List (List Char)
  | [] => [[]]
  | c :: cs =>
    if p c then [] :: splitCharClass p cs
    else
      match splitCharClass p cs with
      | [] => [[c]]
      | t :: ts => (c :: t) :: ts

/-- Worker for splitWs2: cur is the current piece (reversed), pend the
pending run of whitespace (reversed) whose role (separator or piece
content) is decided when the run ends. -/
def splitWs2Aux : List Char → List Char → List Char → List (List Char)
  | cur, pend, [] =>
    if pend.length ≥ 2 then [cur.reverse, []] else [(pend ++ cur).reverse]
  | cur, pend, c :: cs =>
    if isJsWs c then splitWs2Aux cur (c :: pend) cs
    else if pend.length ≥ 2 then cur.reverse :: splitWs2Aux [c] [] cs
    else splitWs2Aux (c :: (pend ++ cur)) [] cs

/-- JS split on the regex of two-or-more whitespace characters: maximal
whitespace runs of length at least two separate pieces; shorter runs stay
inside a piece. -/
def splitWs2 (l : List Char) : List (List Char) :=
  splitWs2Aux [] [] l

/-- tokenizeRegionSegment of the source: split on separators, trim, split
each part on runs of two-plus whitespace, trim, drop empties. -/
def tokenizeRegionSegment (segment : String) : List String :=
  ((((splitCharClass isSepChar segment.data).map trimChars).flatMap
      (fun part => (splitWs2 part).map trimChars)).filter
    (fun t => t ≠ [])).map String.mk

/-- State of the scanner for the regex that matches a parenthesized group
of one-or-more non-parenthesis characters: either outside any candidate
group, or inside one with the characters seen so far (reversed). -/
inductive ScanState
  | outside : ScanState
  | inside : List Char → ScanState

/-- Left-to-right scan producing, in order, the contents of every match of
the regex: an opening parenthesis, one or more characters that are not
parentheses, a closing parenthesis (the matchAll loop of extractRegions).
An opening parenthesis restarts the candidate group, mirroring how the
regex engine fails and resumes at the inner parenthesis. -/
def scanGroupsAux : ScanState → List Char → List String
  | _, [] => []
  | ScanState.outside, c :: cs =>
    if c = '(' then scanGroupsAux (ScanState.inside []) cs
    else scanGroupsAux ScanState.outside cs
  | ScanState.inside acc, c :: cs =>
    if c = '(' then scanGroupsAux (ScanState.inside []) cs
    else if c = ')' then
      if acc.isEmpty then scanGroupsAux ScanState.outside cs
      else String.mk acc.reverse :: scanGroupsAux ScanState.outside cs
    else scanGroupsAux (ScanState.inside (c :: acc)) cs

/-- The scanner state after consuming a character list. -/
def scanEnd : ScanState → List Char → ScanState
  | st, [] => st
  | ScanState.outside, c :: cs =>
    if c = '(' then scanEnd (ScanState.inside []) cs
    else scanEnd ScanState.outside cs
  | ScanState.inside acc, c :: cs =>
    if c = '(' then scanEnd (ScanState.inside []) cs
    else if c = ')' then scanEnd ScanState.outside cs
    else scanEnd (ScanState.inside (c :: acc)) cs

/-- The contents of the parenthesized groups of a string, in order (the
matches array computed at the top of extractRegions). -/
def datParenGroups (s : String) : List String :=
  scanGroupsAux ScanState.outside s.data

/-- The body of the per-group loop of extractRegions: tokenize the group,
normalize each token, and if any token is recognized return the
deduplicated canonical labels in first-discovery order. -/
def recognizeGroup (inside : String) : Option (List String) :=
  let tokens := tokenizeRegionSegment inside
  if tokens = [] then none
  else
    let normalizedTokens := tokens.filterMap normalizeRegionToken
    if normalizedTokens = [] then none
    else some (jsDedup normalizedTokens)

/-- extractRegions of the source: the first parenthesized group yielding at
least one recognized canonical label wins; none if no group yields one.
The TS function also receives undefined, which behaves like the empty
string here. -/
def extractRegions (input : String) : Option (List String) :=
  if input = "" then none
  else (datParenGroups input).findSome? recognizeGroup

mutual

/-- A value of the generic attributed tree produced by the xml parser (the
shape consumed by parseDat): strings, booleans (from boolean attributes),
null, arrays, and objects with ordered string-keyed fields. The mutual
presentation keeps every traversal structurally recursive. -/
inductive RawVal
  | str : String → RawVal
  | bool : Bool → RawVal
  | null : RawVal
  | arr : RawList → RawVal
  | obj : RawFields → RawVal

/-- An array of raw values. -/
inductive RawList
  | nil : RawList
  | cons : RawVal → RawList → RawList

/-- The ordered fields of a raw object. -/
inductive RawFields
  | nil : RawFields
  | cons : String → RawVal → RawFields → RawFields

end

/-- Fields of a raw object as an association list. -/
def RawFields.toList : RawFields → List (String × RawVal)
  | RawFields.nil => []
  | RawFields.cons k v rest => (k, v) :: RawFields.toList rest

/-- Elements of a raw array as a list. -/
def RawList.toList : RawList → List RawVal
  | RawList.nil => []
  | RawList.cons v rest => v :: RawList.toList rest

/-- Build raw object fields from an association list (literal helper). -/
def RawFields.ofList : List (String × RawVal) → RawFields
  | [] => RawFields.nil
  | (k, v) :: rest => RawFields.cons k v (RawFields.ofList rest)

/-- Build a raw array from a list (literal helper). -/
def RawList.ofList : List RawVal → RawList
  | [] => RawList.nil
  | v :: rest => RawList.cons v (RawList.ofList rest)

/-- Literal helper for raw objects. -/
def rawObj (l : List (String × RawVal)) : RawVal :=
  RawVal.obj (RawFields.ofList l)

/-- Literal helper for raw arrays. -/
def rawArr (l : List RawVal) : RawVal :=
  RawVal.arr (RawList.ofList l)

/-- JavaScript truthiness of a raw value: empty strings, false and null are
falsy; arrays and objects (even empty ones) are truthy. -/
def jsTruthy : RawVal → Bool
  | RawVal.str s => s ≠ ""
  | RawVal.bool b => b
  | RawVal.null => false
  | RawVal.arr _ => true
  | RawVal.obj _ => true

mutual

/-- coerceText of the source: null becomes empty, strings pass through,
numbers and booleans are stringified, arrays defer to their first element,
and objects defer to their text field when present. -/
def coerceText : RawVal → String
  | RawVal.str s => s
  | RawVal.bool b => if b then "true" else "false"
  | RawVal.null => ""
  | RawVal.arr RawList.nil => ""
  | RawVal.arr (RawList.cons v _) => coerceText v
  | RawVal.obj fields => coerceTextHash fields

/-- Search the fields of an object for the key used by the xml parser for
mixed text nodes and coerce its value; empty when absent. -/
def coerceTextHash : RawFields → String
  | RawFields.nil => ""
  | RawFields.cons k v rest => if k = "#text" then coerceText v else coerceTextHash rest

end

/-- coerceText applied to a possibly-absent property (absent behaves like
null: the empty string). -/
def coerceTextOpt : Option RawVal → String
  | none => ""
  | some v => coerceText v

/-- toArray of the source: arrays pass through, absent or null becomes the
empty sequence, anything else becomes a singleton. -/
def toArray : Option RawVal → List RawVal
  | none => []
  | some RawVal.null => []
  | some (RawVal.arr l) => l.toList
  | some v => [v]

/-- Property access on a raw object given as an association list. -/
def getField (fields : List (String × RawVal)) (key : String) : Option RawVal :=
  fields.lookup key

/-- The fields of a raw value when it is an object; empty otherwise
(property enumeration of a primitive yields nothing relevant here). -/
def objFields : RawVal → List (String × RawVal)
  | RawVal.obj fs => fs.toList
  | _ => []

/-- DatHeader of the source; fields that the source sets only when the
corresponding key is present are Options. -/
structure DatHeader where
  name : String
  description : Option String := none
  version : Option String := none
  date : Option String := none
  author : Option String := none
  homepage : Option String := none
  url : Option String := none
  extra : List (String × String) := []
deriving DecidableEq

/-- One step of the header-normalization loop: route a known key to its
field, everything else into the open-ended extra mapping. -/
def applyHeaderField (h : DatHeader) (kv : String × RawVal) : DatHeader :=
  let textValue := coerceText kv.2
  match kv.1 with
  | "name" => { h with name := textValue }
  | "description" => { h with description := some textValue }
  | "version" => { h with version := some textValue }
  | "date" => { h with date := some textValue }
  | "author" => { h with author := some textValue }
  | "homepage" => { h with homepage := some textValue }
  | "url" => { h with url := some textValue }
  | key => { h with extra := h.extra ++ [(key, textValue)] }

/-- normalizeHeader of the source: fold the raw header fields, then fail
when the name is still empty. -/
def normalizeHeader (rawHeader : List (String × RawVal)) : Except String DatHeader :=
  let header := rawHeader.foldl applyHeaderField { name := "", extra := [] }
  if header.name = "" then Except.error "Invalid DAT header: missing <name>."
  else Except.ok header

/-- A sub-record: its attribute mapping. -/
structure DatRom where
  attributes : List (String × String)
deriving DecidableEq

/-- mapRomAttributes of the source: keep the attribute-prefixed keys,
stripped of the prefix, with coerced text values. -/
def mapRomAttributes (rawRom : RawVal) : List (String × String) :=
  (objFields rawRom).filterMap (fun kv =>
    if ("@_".data).isPrefixOf kv.1.data then
      some (String.mk (kv.1.data.drop 2), coerceText kv.2)
    else none)

/-- DatGame of the source. The opaque original sub-tree (raw) is carried by
the source only for byte-faithful re-serialization, which no claim
references, so it is omitted here. -/
structure DatGame where
  name : String
  description : String
  category : String
  roms : List DatRom
  regions : List String
deriving DecidableEq

/-- The region-detection chain of normalizeGame: the entry name, then the
description, then the name attribute of the first sub-record; first
success wins, no merging; the empty list when everything fails. -/
def detectRegions (name description : String) (romEntries : List DatRom) : List String :=
  let regions :=
    match extractRegions name with
    | some rs => rs
    | none =>
      match extractRegions description with
      | some rs => rs
      | none =>
        match romEntries with
        | [] => []
        | rom0 :: _ => (extractRegions ((rom0.attributes.lookup "name").getD "")).getD []
  if regions.isEmpty then [] else regions

/-- normalizeGame of the source. -/
def normalizeGame (rawGame : RawVal) : DatGame :=
  let fields := objFields rawGame
  let name :=
    match getField fields "@_name" with
    | some (RawVal.str s) => s
    | _ => coerceTextOpt (getField fields "name")
  let description := coerceTextOpt (getField fields "description")
  let category := coerceTextOpt (getField fields "category")
  let romEntries := (toArray (getField fields "rom")).map (fun rom => DatRom.mk (mapRomAttributes rom))
  { name, description, category, roms := romEntries,
    regions := detectRegions name description romEntries }

/-- Case-insensitive lexicographic comparison on character lists by code
point. -/
def lexLeCh : List Char → List Char → Bool
  | [], _ => true
  | _ :: _, [] => false
  | a :: as, b :: bs =>
    if a.toNat < b.toNat then true
    else if b.toNat < a.toNat then false
    else lexLeCh as bs

/-- Models the default-locale localeCompare ordering used by the source to
sort region labels, restricted to this ASCII vocabulary: the primary
collation strength compares letters case-insensitively (so the label for
the United Kingdom sorts before the label USA), and no two labels of the
vocabulary collide case-insensitively, so deeper strengths never decide. -/
def localeLe (a b : String) : Bool :=
  lexLeCh (lowerStr a).data (lowerStr b).data

/-- The locale comparison is total (as a relation). -/
instance : IsTotal String (fun a b => localeLe a b = true) := by
  constructor
  intro a b
  unfold localeLe
  generalize (lowerStr a).data = x
  generalize (lowerStr b).data = y
  induction x generalizing y with
  | nil => left; rfl
  | cons c cs ih =>
    cases y with
    | nil => right; rfl
    | cons e es =>
      rcases Nat.lt_trichotomy c.toNat e.toNat with hlt | heq | hgt
      · left; simp [lexLeCh, hlt]
      · have hnlt : ¬ c.toNat < e.toNat := by omega
        have hnlt2 : ¬ e.toNat < c.toNat := by omega
        rcases ih es with hh | hh
        · left; simp [lexLeCh, hnlt, hnlt2, hh]
        · right; simp [lexLeCh, hnlt, hnlt2, hh]
      · right; simp [lexLeCh, hgt]

/-- The locale comparison is transitive (as a relation). -/
instance : IsTrans String (fun a b => localeLe a b = true) := by
  constructor
  intro a b c
  unfold localeLe
  generalize (lowerStr a).data = x
  generalize (lowerStr b).data = y
  generalize (lowerStr c).data = z
  intro hab hbc
  induction x generalizing y z with
  | nil => rfl
  | cons u us ih =>
    cases y with
    | nil => simp [lexLeCh] at hab
    | cons v vs =>
      cases z with
      | nil => simp [lexLeCh] at hbc
      | cons w ws =>
        simp only [lexLeCh] at hab hbc ⊢
        by_cases huv : u.toNat < v.toNat
        · by_cases hvw : v.toNat < w.toNat
          · simp [show u.toNat < w.toNat by omega]
          · by_cases hwv : w.toNat < v.toNat
            · simp [hvw, hwv] at hbc
            · simp [show u.toNat < w.toNat by omega]
        · by_cases hvu : v.toNat < u.toNat
          · simp [huv, hvu] at hab
          · by_cases hvw : v.toNat < w.toNat
            · simp [show u.toNat < w.toNat by omega]
            · by_cases hwv : w.toNat < v.toNat
              · simp [hvw, hwv] at hbc
              · have huw : ¬ u.toNat < w.toNat := by omega
                have hwu : ¬ w.toNat < u.toNat := by omega
                simp only [if_neg huv, if_neg hvu] at hab
                simp only [if_neg hvw, if_neg hwv] at hbc
                simp only [if_neg huw, if_neg hwu]
                exact ih vs ws hab hbc

/-- The insertion sequence of the region-vocabulary aggregation loop of
parseDat: entries with no detected regions contribute the sentinel label,
the others contribute their region lists. -/
def collectRegionInserts (games : List DatGame) : List String :=
  games.flatMap (fun g => if g.regions = [] then [DEFAULT_REGION] else g.regions)

/-- The availableRegions computation of parseDat: deduplicate the insertion
sequence (JS Set semantics) and sort with the locale comparison. A stable
sort is used, matching the JS runtime; on this duplicate-free vocabulary
any sort agreeing with the comparator yields the same list. -/
def availableRegionsOf (games : List DatGame) : List String :=
  List.insertionSort (fun a b => localeLe a b = true) (jsDedup (collectRegionInserts games))

/-- Substring test: does pat occur anywhere in the haystack list? -/
def containsSubAux (pat : List Char) : List Char → Bool
  | [] => pat.isPrefixOf ([] : List Char)
  | c :: cs => pat.isPrefixOf (c :: cs) || containsSubAux pat cs

/-- Case-sensitive substring test on strings. -/
def containsSub (hay pat : String) : Bool :=
  containsSubAux pat.data hay.data

/-- The case-insensitive test for the word datfile used by the source
(lower-case both sides; the pattern is ASCII). -/
def testDatfile (s : String) : Bool :=
  containsSub (lowerStr s) "datfile"

/-- The case-insensitive test for the word disc used by the source. -/
def testDisc (s : String) : Bool :=
  containsSub (lowerStr s) "disc"

/-- Match a literal character sequence at the head of the input, returning
the remainder on success. -/
def dropLiteral : List Char → List Char → Option (List Char)
  | [], rest => some rest
  | _ :: _, [] => none
  | p :: ps, c :: cs => if c = p then dropLiteral ps cs else none

/-- An ASCII digit. -/
def isDigitCh (c : Char) : Bool :=
  '0' ≤ c ∧ c ≤ '9'

/-- After the lazy capture of the anchored descriptor pattern: optional
whitespace, an opening parenthesis, the literal entry count, a closing
parenthesis. (Greedy whitespace then the literal is exact: whitespace can
never satisfy the parenthesis, so no further backtracking arises.) -/
def descTailOk (count : String) (rest : List Char) : Bool :=
  (("(" ++ count ++ ")").data).isPrefixOf (rest.dropWhile isJsWs)

/-- The lazy one-or-more capture of the anchored descriptor pattern: grow
the capture one character at a time (the dot of the pattern rejects line
terminators, so a newline aborts every longer capture too) and stop at the
first length whose tail matches the count parenthetical. -/
def lazyCaptureLoop (count : String) (acc : List Char) : List Char → Option (List Char)
  | [] => none
  | c :: cs =>
    if c = '\n' ∨ c = '\r' then none
    else
      let acc2 := c :: acc
      if descTailOk count cs then some acc2.reverse
      else lazyCaptureLoop count acc2 cs

/-- The greedy-then-backtracking whitespace between the dash and the lazy
capture of the anchored descriptor pattern: try consuming w whitespace
characters for w from the maximal run length down to zero. -/
def wsBacktrackLoop (count : String) (rest : List Char) : Nat → Option (List Char)
  | 0 => lazyCaptureLoop count [] rest
  | w + 1 =>
    match lazyCaptureLoop count [] (rest.drop (w + 1)) with
    | some cap => some cap
    | none => wsBacktrackLoop count rest w

/-- tryExtractDescriptor of the source: match the header description
against the pattern anchored at the start, consisting of the escaped
system name, optional whitespace, a dash, optional whitespace, a lazy
one-or-more capture, optional whitespace, and the escaped total entry
count in parentheses; return the trimmed capture. The regex is translated
into an explicit backtracking scan. -/
def tryExtractDescriptor (description systemName : String) (totalGames : Nat) : Option String :=
  if description = "" then none
  else
    match dropLiteral systemName.data description.data with
    | none => none
    | some afterName =>
      match afterName.dropWhile isJsWs with
      | [] => none
      | c :: afterDash =>
        if c = '-' then
          let count := toString totalGames
          let maxWs := (afterDash.takeWhile isJsWs).length
          (wsBacktrackLoop count afterDash maxWs).map (fun cap => String.mk (trimChars cap))
        else none

/-- A character allowed inside the capture of the looser descriptor
pattern: anything but a dash or a parenthesis. -/
def isGenericRunChar (c : Char) : Bool :=
  ¬ (c = '-' ∨ c = '(' ∨ c = ')')

/-- The looser, unanchored descriptor pattern of the source: a dash, then a
one-or-more run of non-dash non-parenthesis characters, then a digits
parenthetical. Because neither the whitespace class nor the capture class
can contain a parenthesis, a match at a given dash exists exactly when the
maximal such run after the dash is non-empty and ends right at an opening
parenthesis followed by one-or-more digits and a closing parenthesis; the
reported capture trims to the trimmed run. The scan tries each dash from
the left, like the regex engine. -/
def genericPatternScan : List Char → Option String
  | [] => none
  | c :: cs =>
    if c = '-' then
      let run := cs.takeWhile isGenericRunChar
      let rest := cs.dropWhile isGenericRunChar
      match rest with
      | '(' :: r2 =>
        let digs := r2.takeWhile isDigitCh
        let r3 := r2.dropWhile isDigitCh
        if run ≠ [] && digs ≠ [] && (match r3 with | ')' :: _ => true | _ => false) then
          some (String.mk (trimChars run))
        else genericPatternScan cs
      | _ => genericPatternScan cs
    else genericPatternScan cs

/-- extractGenericDescriptor of the source: the looser pattern first, then
the literal Datfile label when the description mentions datfile, else
nothing. -/
def extractGenericDescriptor (description : String) : Option String :=
  match genericPatternScan description.data with
  | some cap => some cap
  | none => if testDatfile description then some "Datfile" else none

/-- normalizeDescriptorLabel of the source. -/
def normalizeDescriptorLabel (label : String) : String :=
  if testDatfile label then "Datfile"
  else if testDisc label then "Datfile"
  else label

/-- The pair of descriptor labels derived by deriveDescriptors. -/
structure Descriptors where
  originalDescriptor : String
  normalizedDescriptor : String
deriving DecidableEq

/-- deriveDescriptors of the source. -/
def deriveDescriptors (header : DatHeader) (totalGames : Nat) : Descriptors :=
  let description := header.description.getD ""
  let candidate := tryExtractDescriptor description header.name totalGames
  let generic := candidate <|> extractGenericDescriptor description
  let normalized := normalizeDescriptorLabel (generic.getD "Datfile")
  { originalDescriptor := generic.getD normalized, normalizedDescriptor := normalized }

/-- ParsedDat of the source. The root-level extras are carried by the
source only into re-serialization, which no claim references, so the field
is omitted here. -/
structure ParsedDat where
  header : DatHeader
  games : List DatGame
  availableRegions : List String
  descriptor : String
  normalizedDescriptor : String
  versionLabel : Option String := none
deriving DecidableEq

/-- The datafile property of the value produced by the xml parser. -/
def rootDatafile (parsed : RawVal) : Option RawVal :=
  getField (objFields parsed) "datafile"

/-- The raw header fields reached by the destructuring in parseDat: the
header property of the datafile when it is an object, nothing otherwise
(covering the undefined-defaults-to-empty and the enumeration of a
primitive alike). -/
def rootHeaderFields (datafile : RawVal) : List (String × RawVal) :=
  match getField (objFields datafile) "header" with
  | some (RawVal.obj fs) => fs.toList
  | _ => []

/-- parseDat of the source. -/
def parseDat (parsed : RawVal) : Except String ParsedDat :=
  match rootDatafile parsed with
  | none => Except.error "Invalid DAT: missing <datafile> root node."
  | some datafile =>
    if jsTruthy datafile = false then Except.error "Invalid DAT: missing <datafile> root node."
    else
      match normalizeHeader (rootHeaderFields datafile) with
      | Except.error e => Except.error e
      | Except.ok header =>
        let versionLabel := header.version <|> header.date
        let gamesArray := (toArray (getField (objFields datafile) "game")).map normalizeGame
        let availableRegions := availableRegionsOf gamesArray
        let ds := deriveDescriptors header gamesArray.length
        Except.ok { header, games := gamesArray, availableRegions,
                    descriptor := ds.originalDescriptor,
                    normalizedDescriptor := ds.normalizedDescriptor,
                    versionLabel }

/-- The canonicalization of the selected-region strings at the top of
filterDatByRegions: normalize each string, falling back to the raw string
when normalization yields nothing, drop falsy (empty) strings, and
deduplicate in first-occurrence order. -/
def canonicalSelections (selectedRegions : List String) : List String :=
  jsDedup ((selectedRegions.map (fun v => (normalizeRegionToken v).getD v)).filter
    (fun v => v ≠ ""))

/-- The entry-selection step of filterDatByRegions: with an active (non-
empty) canonicalized selection keep the entries whose region set meets it;
otherwise keep every entry. -/
def keptGames (parsed : ParsedDat) (selectedRegions : List String) : List DatGame :=
  let normalizedSelection := canonicalSelections selectedRegions
  if normalizedSelection ≠ [] then
    parsed.games.filter (fun game => game.regions.any (fun region => region ∈ normalizedSelection))
  else
    parsed.games

/-- Array.prototype.join with a comma-space separator. -/
def joinComma : List String → String
  | [] => ""
  | [x] => x
  | x :: xs => x ++ ", " ++ joinComma xs

/-- createRegionLabel of the source. -/
def createRegionLabel (selectedRegions : List String) : String :=
  if selectedRegions = [] then "" else joinComma selectedRegions

/-- buildFilteredHeader of the source. The today parameter models the
current date in ISO calendar form, taken from the clock by the source. -/
def buildFilteredHeader (header : DatHeader) (filteredCount : Nat)
    (selectedRegions : List String) (descriptorOriginal : String)
    (versionLabel : Option String) (today : String) : DatHeader :=
  let regionLabel := createRegionLabel selectedRegions
  let systemName := header.name
  let version := (versionLabel <|> header.version <|> header.date).getD today
  let decoratedSystem :=
    if regionLabel ≠ "" then systemName ++ " (" ++ regionLabel ++ ")" else systemName
  let description :=
    decoratedSystem ++ " - " ++ descriptorOriginal ++ " (" ++ toString filteredCount ++ ") ("
      ++ version ++ ")"
  { header with name := decoratedSystem, description := some description }

/-- FilterSummary of the source. -/
structure FilterSummary where
  initialGames : Nat
  filteredGames : Nat
  removedGames : Nat
  selectedRegions : List String
  regionLabel : String
  descriptor : String
  normalizedDescriptor : String
  versionLabel : Option String := none
deriving DecidableEq

/-- FilteredDatResult of the source, restricted to the fields the claims
reference: the serialized xml text and the suggested filename (both
derived purely from the fields kept here plus the omitted raw sub-trees)
are not modeled. -/
structure FilteredDatResult where
  header : DatHeader
  games : List DatGame
  summary : FilterSummary
deriving DecidableEq

/-- filterDatByRegions of the source (minus serialization and filename
derivation; the baseFilename parameter feeds only the latter and is
dropped). The today parameter models the current date used as the last
fallback of the version label. -/
def filterDatByRegions (parsed : ParsedDat) (selectedRegions : List String)
    (today : String) : Except String FilteredDatResult :=
  let canonical := canonicalSelections selectedRegions
  let games := keptGames parsed selectedRegions
  if games = [] then Except.error "No games match the selected region filters."
  else
    let descriptorOriginal := if parsed.descriptor = "" then "Datfile" else parsed.descriptor
    let descriptorNormalized :=
      if parsed.normalizedDescriptor = "" then normalizeDescriptorLabel descriptorOriginal
      else parsed.normalizedDescriptor
    let header := buildFilteredHeader parsed.header games.length canonical descriptorOriginal
      parsed.versionLabel today
    let summary : FilterSummary := {
      initialGames := parsed.games.length,
      filteredGames := games.length,
      removedGames := parsed.games.length - games.length,
      selectedRegions := canonical,
      regionLabel := createRegionLabel canonical,
      descriptor := descriptorOriginal,
      normalizedDescriptor := descriptorNormalized,
      versionLabel := parsed.versionLabel }
    Except.ok { header, games, summary }

/-! ### Concrete documents and values used by counterexamples and witnesses -/

/-- Modelled from the spec words of claim C3 only: plain lexicographic
(code-point) sorting, to compare with the locale-aware sorting the code
performs. -/
def lexSortPlain (l : List String) : List String :=
  List.insertionSort (fun a b => lexLeCh a.data b.data = true) l

/-- A document with one USA-tagged entry. -/
def docSoloUSA : RawVal := rawObj [("datafile", rawObj [
  ("header", rawObj [("name", RawVal.str "X")]),
  ("game", rawObj [("@_name", RawVal.str "Solo (USA)")])])]

/-- The parse of docSoloUSA, as an explicit literal. -/
def parsedSoloUSA : ParsedDat := {
  header := { name := "X", extra := [] },
  games := [{ name := "Solo (USA)", description := "", category := "", roms := [],
              regions := ["USA"] }],
  availableRegions := ["USA"],
  descriptor := "Datfile",
  normalizedDescriptor := "Datfile",
  versionLabel := none }

/-- The successful filter of parsedSoloUSA by the USA selection, as an
explicit literal. -/
def resultSoloUSA : FilteredDatResult := {
  header := { name := "X (USA)", description := some "X (USA) - Datfile (1) (2026-10-12)",
              extra := [] },
  games := [{ name := "Solo (USA)", description := "", category := "", roms := [],
              regions := ["USA"] }],
  summary := {
    initialGames := 1, filteredGames := 1, removedGames := 0,
    selectedRegions := ["USA"], regionLabel := "USA",
    descriptor := "Datfile", normalizedDescriptor := "Datfile",
    versionLabel := none } }

/-- A document with a USA-tagged entry and an entry with no detected
regions. -/
def docMixed : RawVal := rawObj [("datafile", rawObj [
  ("header", rawObj [("name", RawVal.str "X")]),
  ("game", rawArr [
    rawObj [("@_name", RawVal.str "Alpha (USA)")],
    rawObj [("@_name", RawVal.str "Beta")]])])]

/-- A document whose entries carry the labels USA, United Kingdom and
Unknown (the last from an explicit Unknown group, not from a missing
region). -/
def docThree : RawVal := rawObj [("datafile", rawObj [
  ("header", rawObj [("name", RawVal.str "X")]),
  ("game", rawArr [
    rawObj [("@_name", RawVal.str "A (USA)")],
    rawObj [("@_name", RawVal.str "B (United Kingdom)")],
    rawObj [("@_name", RawVal.str "C (Unknown)")]])])]

/-- The parse of docThree, as an explicit literal. -/
def parsedThree : ParsedDat := {
  header := { name := "X", extra := [] },
  games := [
    { name := "A (USA)", description := "", category := "", roms := [], regions := ["USA"] },
    { name := "B (United Kingdom)", description := "", category := "", roms := [],
      regions := ["United Kingdom"] },
    { name := "C (Unknown)", description := "", category := "", roms := [],
      regions := ["Unknown"] }],
  availableRegions := ["United Kingdom", "Unknown", "USA"],
  descriptor := "Datfile",
  normalizedDescriptor := "Datfile",
  versionLabel := none }

/-- A document whose description matches the looser descriptor pattern
with an all-whitespace capture, so the derived descriptor is empty. -/
def docEmptyDescriptor : RawVal := rawObj [("datafile", rawObj [
  ("header", rawObj [("name", RawVal.str "My System"),
                     ("description", RawVal.str "- (1)")]),
  ("game", rawObj [("@_name", RawVal.str "Solo (Japan)")])])]

/-- A document with two region-tagged entries, for the witness of the
full-selection equivalence. -/
def docTwoTagged : RawVal := rawObj [("datafile", rawObj [
  ("header", rawObj [("name", RawVal.str "X")]),
  ("game", rawArr [
    rawObj [("@_name", RawVal.str "Alpha (USA)")],
    rawObj [("@_name", RawVal.str "Beta (Japan)")]])])]

/-- The parse of docTwoTagged, as an explicit literal. -/
def parsedTwoTagged : ParsedDat := {
  header := { name := "X", extra := [] },
  games := [
    { name := "Alpha (USA)", description := "", category := "", roms := [], regions := ["USA"] },
    { name := "Beta (Japan)", description := "", category := "", roms := [], regions := ["Japan"] }],
  availableRegions := ["Japan", "USA"],
  descriptor := "Datfile",
  normalizedDescriptor := "Datfile",
  versionLabel := none }

/-- A USA-tagged game record. -/
def gameUSA : DatGame :=
  { name := "Alpha (USA)", description := "", category := "", roms := [], regions := ["USA"] }

/-- A game record with no detected regions. -/
def gameNone : DatGame :=
  { name := "Beta", description := "", category := "", roms := [], regions := [] }

/-- A game record tagged with the sentinel Unknown label. -/
def gameUnknown : DatGame :=
  { name := "C (Unknown)", description := "", category := "", roms := [], regions := ["Unknown"] }

/-- A small in-memory document with a tagged and an untagged entry. -/
def parsedMixed : ParsedDat := {
  header := { name := "X", extra := [] },
  games := [gameUSA, gameNone],
  availableRegions := ["Unknown", "USA"],
  descriptor := "Datfile",
  normalizedDescriptor := "Datfile",
  versionLabel := none }

/-- A small in-memory document with an Unknown-tagged and an untagged
entry. -/
def parsedUnknown : ParsedDat := {
  header := { name := "X", extra := [] },
  games := [gameUnknown, gameNone],
  availableRegions := ["Unknown"],
  descriptor := "Datfile",
  normalizedDescriptor := "Datfile",
  versionLabel := none }

/-! ### Supporting lemmas -/

theorem jsDedupAux_mem : ∀ (l seen : List String) (x : String),
    x ∈ jsDedupAux seen l ↔ x ∈ l ∧ x ∉ seen := by
  intro l
  induction l with
  | nil => intro seen x; simp [jsDedupAux]
  | cons a l ih =>
    intro seen x
    by_cases ha : a ∈ seen
    · simp only [jsDedupAux, if_pos ha, ih]
      constructor
      · rintro ⟨hx, hns⟩; exact ⟨List.mem_cons_of_mem _ hx, hns⟩
      · rintro ⟨hx, hns⟩
        rcases List.mem_cons.mp hx with rfl | hx
        · exact absurd ha hns
        · exact ⟨hx, hns⟩
    · simp only [jsDedupAux, if_neg ha, List.mem_cons, ih, List.mem_cons, not_or] at *
      constructor
      · rintro (rfl | ⟨hx, hxa, hxs⟩)
        · exact ⟨Or.inl rfl, ha⟩
        · exact ⟨Or.inr hx, hxs⟩
      · rintro ⟨rfl | hx, hns⟩
        · exact Or.inl rfl
        · by_cases hxa : x = a
          · exact Or.inl hxa
          · exact Or.inr ⟨hx, hxa, hns⟩

theorem jsDedup_mem (l : List String) (x : String) : x ∈ jsDedup l ↔ x ∈ l := by
  simp [jsDedup, jsDedupAux_mem]

theorem jsDedupAux_nodup : ∀ (l seen : List String), (jsDedupAux seen l).Nodup := by
  intro l
  induction l with
  | nil => intro seen; simp [jsDedupAux]
  | cons a l ih =>
    intro seen
    by_cases ha : a ∈ seen
    · simpa [jsDedupAux, if_pos ha] using ih seen
    · simp only [jsDedupAux, if_neg ha, List.nodup_cons]
      refine ⟨fun hmem => ?_, ih (a :: seen)⟩
      exact ((jsDedupAux_mem l (a :: seen) a).mp hmem).2 (List.mem_cons_self a seen)

theorem jsDedup_nodup (l : List String) : (jsDedup l).Nodup :=
  jsDedupAux_nodup l []

theorem jsDedupAux_eq_self : ∀ (l seen : List String), l.Nodup → (∀ x ∈ l, x ∉ seen) →
    jsDedupAux seen l = l := by
  intro l
  induction l with
  | nil => intro seen _ _; rfl
  | cons a l ih =>
    intro seen hnd hs
    have ha : a ∉ seen := hs a (List.mem_cons_self a l)
    simp only [jsDedupAux, if_neg ha]
    congr 1
    refine ih (a :: seen) (List.nodup_cons.mp hnd).2 ?_
    intro x hx
    simp only [List.mem_cons, not_or]
    exact ⟨fun h => (List.nodup_cons.mp hnd).1 (h ▸ hx), hs x (List.mem_cons_of_mem _ hx)⟩

theorem jsDedup_eq_self (l : List String) (h : l.Nodup) : jsDedup l = l :=
  jsDedupAux_eq_self l [] h (by simp)

theorem jsDedup_ne_nil (a : String) (l : List String) : jsDedup (a :: l) ≠ [] := by
  simp [jsDedup, jsDedupAux]

theorem lookup_mem_snd : ∀ (l : List (String × String)) (k v : String),
    l.lookup k = some v → v ∈ l.map Prod.snd := by
  intro l
  induction l with
  | nil => intro k v h; simp [List.lookup] at h
  | cons p l ih =>
    intro k v h
    simp only [List.lookup] at h
    by_cases hk : k = p.1
    · simp only [show (k == p.1) = true from beq_iff_eq.mpr hk, if_pos] at h
      cases h
      exact List.mem_map.mpr ⟨p, List.mem_cons_self _ _, rfl⟩
    · simp only [show (k == p.1) = false from beq_eq_false_iff_ne.mpr hk] at h
      exact List.mem_cons_of_mem _ (ih k v h)

/-- Every token normalization output is a canonical label. -/
theorem normalizeRegionToken_mem_canonical {t c : String}
    (h : normalizeRegionToken t = some c) : c ∈ CANONICAL_REGIONS := by
  unfold normalizeRegionToken at h
  by_cases ht : t = ""
  · simp [ht] at h
  · simp only [if_neg ht] at h
    by_cases hc : cleanToken t = ""
    · simp [hc] at h
    · simp only [if_neg hc] at h
      rcases hl : REGION_SYNONYMS.lookup (lowerStr (cleanToken t)) with _ | syn
      · simp only [hl] at h
        by_cases hmem : cleanToken t ∈ CANONICAL_REGIONS
        · simp only [if_pos hmem] at h; cases h; exact hmem
        · simp [if_neg hmem] at h
      · simp only [hl] at h
        cases h
        have := lookup_mem_snd REGION_SYNONYMS _ _ hl
        exact List.mem_append_left _ ((jsDedup_mem _ _).mpr this)

/-- Every canonical label is a fixed point of token normalization. -/
theorem canonical_fixed : ∀ c ∈ CANONICAL_REGIONS, normalizeRegionToken c = some c := by
  decide

/-- No canonical label is the empty string. -/
theorem canonical_ne_empty : ∀ c ∈ CANONICAL_REGIONS, c ≠ "" := by
  decide

/-- A recognized group is a non-empty duplicate-free list of canonical
labels. -/
theorem recognizeGroup_some {g : String} {rs : List String}
    (h : recognizeGroup g = some rs) :
    rs ≠ [] ∧ rs.Nodup ∧ ∀ x ∈ rs, x ∈ CANONICAL_REGIONS := by
  unfold recognizeGroup at h
  by_cases ht : tokenizeRegionSegment g = []
  · simp [ht] at h
  · simp only [if_neg ht] at h
    by_cases hn : (tokenizeRegionSegment g).filterMap normalizeRegionToken = []
    · simp [hn] at h
    · simp only [if_neg hn] at h
      cases h
      refine ⟨?_, jsDedup_nodup _, ?_⟩
      · rcases he : (tokenizeRegionSegment g).filterMap normalizeRegionToken with _ | ⟨a, l⟩
        · exact absurd he hn
        · exact jsDedup_ne_nil a l
      · intro x hx
        have hx2 := (jsDedup_mem _ _).mp hx
        rcases List.mem_filterMap.mp hx2 with ⟨t, _, hnt⟩
        exact normalizeRegionToken_mem_canonical hnt

/-- A successful region extraction is non-empty, duplicate-free and drawn
from the canonical vocabulary. -/
theorem extractRegions_some {s : String} {rs : List String}
    (h : extractRegions s = some rs) :
    rs ≠ [] ∧ rs.Nodup ∧ ∀ x ∈ rs, x ∈ CANONICAL_REGIONS := by
  unfold extractRegions at h
  by_cases hs : s = ""
  · simp [hs] at h
  · simp only [if_neg hs] at h
    rcases List.exists_of_findSome?_eq_some h with ⟨g, _, hg⟩
    exact recognizeGroup_some hg

/-- Scanning a concatenation: the groups of the first part (the scanner
forgets an unterminated candidate at the end of a run) followed by the
groups of the second part started in the carried-over state. -/
theorem scanGroupsAux_append : ∀ (l1 l2 : List Char) (st : ScanState),
    scanGroupsAux st (l1 ++ l2) = scanGroupsAux st l1 ++ scanGroupsAux (scanEnd st l1) l2 := by
  intro l1
  induction l1 with
  | nil => intro l2 st; cases st <;> simp [scanGroupsAux, scanEnd]
  | cons c cs ih =>
    intro l2 st
    cases st with
    | outside =>
      by_cases hc : c = '('
      · simp [scanGroupsAux, scanEnd, hc, ih]
      · simp [scanGroupsAux, scanEnd, hc, ih]
    | inside acc =>
      by_cases hc : c = '('
      · simp [scanGroupsAux, scanEnd, hc, ih]
      · by_cases hc2 : c = ')'
        · by_cases hacc : acc.isEmpty
          · simp [scanGroupsAux, scanEnd, hc, hc2, hacc, ih]
          · simp [scanGroupsAux, scanEnd, hc, hc2, hacc, ih]
        · simp [scanGroupsAux, scanEnd, hc, hc2, ih]

/-- An opening parenthesis always restarts the candidate group, whatever
the scanner state. -/
theorem scanGroupsAux_open (st : ScanState) (cs : List Char) :
    scanGroupsAux st ('(' :: cs) = scanGroupsAux (ScanState.inside []) cs := by
  cases st <;> simp [scanGroupsAux]

/-- Once a string already yields regions, appending arbitrary text does not
change the result: the later text is never inspected. -/
theorem extractRegions_append {s : String} {rs : List String} (t : String)
    (h : extractRegions s = some rs) : extractRegions (s ++ t) = some rs := by
  have hs : s ≠ "" := by
    rintro rfl
    simp [extractRegions] at h
  have hst : s ++ t ≠ "" := by
    intro hmix
    apply hs
    have hd : s.data ++ t.data = ([] : List Char) := by
      simpa using congrArg String.data hmix
    exact String.ext (List.append_eq_nil.mp hd).1
  unfold extractRegions at h ⊢
  simp only [if_neg hs] at h
  simp only [if_neg hst]
  unfold datParenGroups at h ⊢
  have hdata : (s ++ t).data = s.data ++ t.data := by simp
  rw [hdata, scanGroupsAux_append, List.findSome?_append, h]
  rfl

/-- Pushing the literal group Unknown through the scanner from the
just-opened state: it closes as one group and scanning resumes outside. -/
theorem scanGroups_unknown (t : List Char) :
    scanGroupsAux (ScanState.inside []) (("Unknown)").data ++ t)
      = "Unknown" :: scanGroupsAux ScanState.outside t := by
  simp [scanGroupsAux, List.isEmpty]

/-- Appending the literal group Unknown (and then anything) to a string
with no detected regions yields exactly the sentinel label: the appended
group is the first recognized one. -/
theorem extractRegions_none_append_unknown (s t : String)
    (h : extractRegions s = none) :
    extractRegions (s ++ "(Unknown)" ++ t) = some ["Unknown"] := by
  have hfind : List.findSome? recognizeGroup (scanGroupsAux ScanState.outside s.data) = none := by
    by_cases hs : s = ""
    · subst hs; rfl
    · unfold extractRegions datParenGroups at h
      simpa [if_neg hs] using h
  have hne : s ++ "(Unknown)" ++ t ≠ "" := by
    intro hc
    have hdat := congrArg String.data hc
    simp at hdat
  have hstr : (s ++ "(Unknown)" ++ t).data
      = s.data ++ ('(' :: (("Unknown)").data ++ t.data)) := by
    simp
  unfold extractRegions datParenGroups
  rw [if_neg hne, hstr, scanGroupsAux_append, List.findSome?_append, hfind,
    scanGroupsAux_open, scanGroups_unknown]
  simp only [List.findSome?_cons]
  have : recognizeGroup "Unknown" = some ["Unknown"] := by decide
  rw [this]
  rfl

theorem availableRegionsOf_mem (games : List DatGame) (x : String) :
    x ∈ availableRegionsOf games ↔ x ∈ collectRegionInserts games := by
  unfold availableRegionsOf
  rw [List.mem_insertionSort, jsDedup_mem]

theorem availableRegionsOf_nodup (games : List DatGame) :
    (availableRegionsOf games).Nodup :=
  ((List.perm_insertionSort _ _).nodup_iff).mpr (jsDedup_nodup _)

theorem availableRegionsOf_sorted (games : List DatGame) :
    List.Sorted (fun a b => localeLe a b = true) (availableRegionsOf games) :=
  List.sorted_insertionSort _ _

theorem collectRegionInserts_mem (games : List DatGame) (x : String) :
    x ∈ collectRegionInserts games ↔
      (∃ g ∈ games, x ∈ g.regions) ∨ (x = DEFAULT_REGION ∧ ∃ g ∈ games, g.regions = []) := by
  unfold collectRegionInserts
  rw [List.mem_flatMap]
  constructor
  · rintro ⟨g, hg, hx⟩
    by_cases hr : g.regions = []
    · rw [if_pos hr] at hx
      rcases List.mem_singleton.mp hx with rfl
      exact Or.inr ⟨rfl, g, hg, hr⟩
    · rw [if_neg hr] at hx
      exact Or.inl ⟨g, hg, hx⟩
  · rintro (⟨g, hg, hx⟩ | ⟨rfl, g, hg, hr⟩)
    · refine ⟨g, hg, ?_⟩
      have hr : g.regions ≠ [] := fun hc => by simp [hc] at hx
      rw [if_neg hr]; exact hx
    · exact ⟨g, hg, by simp [hr]⟩

/-- Membership characterization of the canonicalized selection list. -/
theorem canonicalSelections_mem (sel : List String) (c : String) :
    c ∈ canonicalSelections sel ↔
      c ≠ "" ∧ ∃ v ∈ sel, (normalizeRegionToken v).getD v = c := by
  unfold canonicalSelections
  rw [jsDedup_mem, List.mem_filter]
  simp only [List.mem_map, decide_eq_true_eq]
  tauto

theorem canonicalSelections_nodup (sel : List String) :
    (canonicalSelections sel).Nodup :=
  jsDedup_nodup _

/-- A list of distinct canonical labels canonicalizes to itself. -/
theorem canonicalSelections_fixed (sel : List String) (hnd : sel.Nodup)
    (hc : ∀ x ∈ sel, x ∈ CANONICAL_REGIONS) :
    canonicalSelections sel = sel := by
  unfold canonicalSelections
  have hmap : sel.map (fun v => (normalizeRegionToken v).getD v) = sel := by
    have h1 : sel.map (fun v => (normalizeRegionToken v).getD v) = sel.map id :=
      List.map_congr_left (fun x hx => by rw [canonical_fixed x (hc x hx)]; rfl)
    simpa using h1
  rw [hmap]
  have hfil : sel.filter (fun v => v ≠ "") = sel := by
    rw [List.filter_eq_self]
    intro x hx
    simpa using canonical_ne_empty x (hc x hx)
  rw [hfil]
  exact jsDedup_eq_self sel hnd

/-- Membership characterization of the kept entries under an active
selection. -/
theorem keptGames_mem_active (parsed : ParsedDat) (sel : List String)
    (hact : canonicalSelections sel ≠ []) (g : DatGame) :
    g ∈ keptGames parsed sel ↔
      g ∈ parsed.games ∧ ∃ r ∈ g.regions, r ∈ canonicalSelections sel := by
  unfold keptGames
  rw [if_pos (by simpa using hact), List.mem_filter]
  simp [List.any_eq_true]

theorem keptGames_inactive (parsed : ParsedDat) (sel : List String)
    (hact : canonicalSelections sel = []) :
    keptGames parsed sel = parsed.games := by
  unfold keptGames
  rw [if_neg (by simpa using hact)]

/-- The trailing emptiness guard of the detection chain is the identity. -/
theorem ite_isEmpty_self (l : List String) : (if l.isEmpty then [] else l) = l := by
  cases l <;> simp

/-- Variant of the emptiness guard with a propositional condition. -/
theorem ite_nil_self (l : List String) : (if l = [] then [] else l) = l := by
  by_cases h : l = [] <;> simp [h]

/-- A detected region set is empty or a successful extraction result. -/
theorem detectRegions_cases (n ds : String) (roms : List DatRom) :
    detectRegions n ds roms = [] ∨
      ∃ s, extractRegions s = some (detectRegions n ds roms) := by
  unfold detectRegions
  rcases h1 : extractRegions n with _ | rs1
  · rcases h2 : extractRegions ds with _ | rs2
    · rcases roms with _ | ⟨rom0, rest⟩
      · left; simp [h1, h2]
      · rcases h3 : extractRegions ((rom0.attributes.lookup "name").getD "") with _ | rs3
        · left; simp [h1, h2, h3]
        · right
          refine ⟨(rom0.attributes.lookup "name").getD "", ?_⟩
          simp [h1, h2, h3, ite_isEmpty_self, ite_nil_self]
    · right
      refine ⟨ds, ?_⟩
      simp [h1, h2, ite_isEmpty_self, ite_nil_self]
  · right
    refine ⟨n, ?_⟩
    simp [h1, ite_isEmpty_self, ite_nil_self]

/-- The regions of a normalized game are empty or canonical. -/
theorem normalizeGame_regions_canonical (raw : RawVal) :
    ∀ r ∈ (normalizeGame raw).regions, r ∈ CANONICAL_REGIONS := by
  have hreg : (normalizeGame raw).regions
      = detectRegions (normalizeGame raw).name (normalizeGame raw).description
          (normalizeGame raw).roms := by
    rfl
  rw [hreg]
  rcases detectRegions_cases (normalizeGame raw).name (normalizeGame raw).description
      (normalizeGame raw).roms with he | ⟨s, hs⟩
  · rw [he]; intro r hr; simp at hr
  · exact (extractRegions_some hs).2.2

/-- Inversion of a successful parse: the derived fields of the document are
what parseDat computes from its games and header. -/
theorem parseDat_ok_inv {raw : RawVal} {d : ParsedDat} (h : parseDat raw = Except.ok d) :
    d.availableRegions = availableRegionsOf d.games ∧
    d.versionLabel = (d.header.version <|> d.header.date) ∧
    ∀ g ∈ d.games, ∃ rg, g = normalizeGame rg := by
  unfold parseDat at h
  rcases hroot : rootDatafile raw with _ | df
  · simp only [hroot] at h
    exact Except.noConfusion h
  · simp only [hroot] at h
    by_cases htr : jsTruthy df = false
    · rw [if_pos htr] at h; exact Except.noConfusion h
    · rw [if_neg htr] at h
      rcases hnh : normalizeHeader (rootHeaderFields df) with e | hdr
      · simp only [hnh] at h
        exact Except.noConfusion h
      · simp only [hnh] at h
        cases h
        refine ⟨rfl, rfl, ?_⟩
        intro g hg
        rcases List.mem_map.mp hg with ⟨rg, _, rfl⟩
        exact ⟨rg, rfl⟩

/-- In a parsed document every region of every game is canonical. -/
theorem parsed_regions_canonical {raw : RawVal} {d : ParsedDat}
    (h : parseDat raw = Except.ok d) :
    ∀ g ∈ d.games, ∀ r ∈ g.regions, r ∈ CANONICAL_REGIONS := by
  intro g hg
  rcases (parseDat_ok_inv h).2.2 g hg with ⟨rg, rfl⟩
  exact normalizeGame_regions_canonical rg

/-- The name computed by the header-field loop, tracked directly. -/
def headerNameText (rawHeader : List (String × RawVal)) : String :=
  rawHeader.foldl (fun acc kv => if kv.1 = "name" then coerceText kv.2 else acc) ""

theorem applyHeaderField_name (h : DatHeader) (kv : String × RawVal) :
    (applyHeaderField h kv).name = if kv.1 = "name" then coerceText kv.2 else h.name := by
  rcases kv with ⟨k, v⟩
  unfold applyHeaderField
  split <;> simp_all

theorem foldl_applyHeaderField_name : ∀ (l : List (String × RawVal)) (h : DatHeader),
    (l.foldl applyHeaderField h).name
      = l.foldl (fun acc kv => if kv.1 = "name" then coerceText kv.2 else acc) h.name := by
  intro l
  induction l with
  | nil => intro h; rfl
  | cons kv l ih =>
    intro h
    simp only [List.foldl_cons, ih, applyHeaderField_name]

/-- normalizeHeader fails exactly when the tracked name text is empty. -/
theorem normalizeHeader_error_iff (rawHeader : List (String × RawVal)) :
    (∃ e, normalizeHeader rawHeader = Except.error e) ↔ headerNameText rawHeader = "" := by
  unfold normalizeHeader headerNameText
  rw [← foldl_applyHeaderField_name rawHeader { name := "", extra := [] }]
  by_cases hname : (rawHeader.foldl applyHeaderField { name := "", extra := [] }).name = ""
  · simp [hname]
  · simp [hname]

/-- normalizeHeader succeeds only with a non-empty name. -/
theorem normalizeHeader_ok_name {rawHeader : List (String × RawVal)} {hd : DatHeader}
    (h : normalizeHeader rawHeader = Except.ok hd) : hd.name ≠ "" := by
  unfold normalizeHeader at h
  by_cases hname : (rawHeader.foldl applyHeaderField { name := "", extra := [] }).name = ""
  · rw [if_pos hname] at h; exact Except.noConfusion h
  · rw [if_neg hname] at h
    cases h
    exact hname

theorem string_append_ne_empty_left {a b : String} (ha : a ≠ "") : a ++ b ≠ "" := by
  intro hc
  apply ha
  have hd := congrArg String.data hc
  simp only [String.data_append] at hd
  exact String.ext (List.append_eq_nil.mp (by simpa using hd)).1

/-- Joining a non-empty list of non-empty strings is non-empty. -/
theorem joinComma_ne_empty : ∀ (l : List String), l ≠ [] → (∀ x ∈ l, x ≠ "") →
    joinComma l ≠ "" := by
  intro l
  match l with
  | [] => intro h _; exact absurd rfl h
  | [x] =>
    intro _ hx
    simpa [joinComma] using hx x (List.mem_singleton_self x)
  | x :: y :: ys =>
    intro _ hx
    show x ++ ", " ++ joinComma (y :: ys) ≠ ""
    exact string_append_ne_empty_left
      (string_append_ne_empty_left (hx x (List.mem_cons_self _ _)))

/-- A successful filter, spelled out. -/
theorem filterDatByRegions_ok (parsed : ParsedDat) (sel : List String) (today : String)
    (h : keptGames parsed sel ≠ []) :
    filterDatByRegions parsed sel today = Except.ok {
      header := buildFilteredHeader parsed.header (keptGames parsed sel).length
        (canonicalSelections sel)
        (if parsed.descriptor = "" then "Datfile" else parsed.descriptor)
        parsed.versionLabel today,
      games := keptGames parsed sel,
      summary := {
        initialGames := parsed.games.length,
        filteredGames := (keptGames parsed sel).length,
        removedGames := parsed.games.length - (keptGames parsed sel).length,
        selectedRegions := canonicalSelections sel,
        regionLabel := createRegionLabel (canonicalSelections sel),
        descriptor := if parsed.descriptor = "" then "Datfile" else parsed.descriptor,
        normalizedDescriptor :=
          if parsed.normalizedDescriptor = ""
          then normalizeDescriptorLabel (if parsed.descriptor = "" then "Datfile" else parsed.descriptor)
          else parsed.normalizedDescriptor,
        versionLabel := parsed.versionLabel } } := by
  unfold filterDatByRegions
  rw [if_neg h]

/-- The filter fails exactly when the kept subsequence is empty. -/
theorem filterDatByRegions_error_iff (parsed : ParsedDat) (sel : List String) (today : String) :
    (∃ e, filterDatByRegions parsed sel today = Except.error e) ↔ keptGames parsed sel = [] := by
  by_cases h : keptGames parsed sel = []
  · unfold filterDatByRegions
    rw [if_pos h]
    simp [h]
  · rw [filterDatByRegions_ok parsed sel today h]
    simp [h]


/-! ### Claim theorems -/

/-- C4: for every document: if the canonicalized selection set is empty
the filter keeps every entry (select-all); if it is non-empty the filter
keeps exactly the entries whose region set meets the selection, so every
entry with zero regions is dropped by every non-empty selection; a
successful filter returns exactly this kept subsequence. -/
theorem C4_filter_keeps_exactly_matching :
    ∀ (parsed : ParsedDat) (sel : List String),
      (canonicalSelections sel = [] → keptGames parsed sel = parsed.games)
      ∧ (canonicalSelections sel ≠ [] →
          (∀ g, g ∈ keptGames parsed sel ↔
            g ∈ parsed.games ∧ ∃ r ∈ g.regions, r ∈ canonicalSelections sel)
          ∧ ∀ g ∈ parsed.games, g.regions = [] → g ∉ keptGames parsed sel)
      ∧ ∀ (today : String) (r : FilteredDatResult),
          filterDatByRegions parsed sel today = Except.ok r →
          r.games = keptGames parsed sel := by
  intro parsed sel
  refine ⟨keptGames_inactive parsed sel, fun hact => ⟨keptGames_mem_active parsed sel hact, ?_⟩, ?_⟩
  · intro g _ hreg hmem
    rcases ((keptGames_mem_active parsed sel hact g).mp hmem).2 with ⟨r, hr, _⟩
    rw [hreg] at hr
    simp at hr
  · intro today r hok
    have hkept : keptGames parsed sel ≠ [] := by
      intro hc
      rcases (filterDatByRegions_error_iff parsed sel today).mpr hc with ⟨e, he⟩
      rw [he] at hok
      exact Except.noConfusion hok
    rw [filterDatByRegions_ok parsed sel today hkept] at hok
    cases hok
    rfl

/-- C4 witness: with the selection USA on a document holding a USA-tagged
and an untagged entry, the tagged entry is kept and the untagged entry is
dropped. -/
theorem C4_filter_keeps_exactly_matching_witness :
    gameUSA ∈ keptGames parsedMixed ["USA"] ∧ gameNone ∉ keptGames parsedMixed ["USA"] := by
  constructor
  · exact ((C4_filter_keeps_exactly_matching parsedMixed ["USA"]).2.1 (by decide)).1 gameUSA
      |>.mpr ⟨by decide, "USA", by decide, by decide⟩
  · exact ((C4_filter_keeps_exactly_matching parsedMixed ["USA"]).2.1 (by decide)).2 gameNone
      (by decide) (by decide)

/-- C5: the filter fails exactly when the kept subsequence is empty, in
particular whenever the selection is active and disjoint from every
entry region set; the Except embedding returns no partial result on
failure and the input document value is never modified (the filter is a
pure function of it). -/
theorem C5_noMatches_characterization :
    ∀ (parsed : ParsedDat) (sel : List String) (today : String),
      ((∃ e, filterDatByRegions parsed sel today = Except.error e) ↔
        keptGames parsed sel = [])
      ∧ (canonicalSelections sel ≠ [] →
          (∀ g ∈ parsed.games, ∀ r ∈ g.regions, r ∉ canonicalSelections sel) →
          ∃ e, filterDatByRegions parsed sel today = Except.error e) := by
  intro parsed sel today
  refine ⟨filterDatByRegions_error_iff parsed sel today, fun hact hdisj => ?_⟩
  apply (filterDatByRegions_error_iff parsed sel today).mpr
  unfold keptGames
  rw [if_pos (by simpa using hact)]
  rw [List.filter_eq_nil_iff]
  intro g hg hray
  rcases List.any_eq_true.mp hray with ⟨r, hr, hrs⟩
  exact hdisj g hg r hr (by simpa using hrs)

/-- C5 witness: a selection disjoint from every entry region fails, and an
agreeing selection does not. -/
theorem C5_noMatches_characterization_witness :
    (∃ e, filterDatByRegions parsedMixed ["Japan"] "2026-10-12" = Except.error e) := by
  exact (C5_noMatches_characterization parsedMixed ["Japan"] "2026-10-12").2
    (by decide) (by decide)

/-- C9: when both the anchored and the looser descriptor patterns fail,
the derived descriptor pair is the literal Datfile (whether or not the
description mentions the word datfile, which is the branch the code takes
when it does); and descriptor normalization sends exactly the labels
containing datfile or disc (case-insensitively) to the literal Datfile,
leaving all others unchanged. -/
theorem C9_descriptor_fallback :
    ∀ (header : DatHeader) (totalGames : Nat),
      (tryExtractDescriptor (header.description.getD "") header.name totalGames = none →
        genericPatternScan (header.description.getD "").data = none →
        deriveDescriptors header totalGames
          = { originalDescriptor := "Datfile", normalizedDescriptor := "Datfile" })
      ∧ ∀ label, normalizeDescriptorLabel label
          = if testDatfile label || testDisc label then "Datfile" else label := by
  intro header totalGames
  constructor
  · intro h1 h2
    unfold deriveDescriptors extractGenericDescriptor
    simp only [h1, h2]
    by_cases ht : testDatfile (header.description.getD "")
    · simp [ht, show normalizeDescriptorLabel "Datfile" = "Datfile" from by decide]
    · simp [ht, show normalizeDescriptorLabel "Datfile" = "Datfile" from by decide]
  · intro label
    unfold normalizeDescriptorLabel
    by_cases h1 : testDatfile label
    · simp [h1]
    · by_cases h2 : testDisc label
      · simp [h1, h2]
      · simp [h1, h2]

/-- C9 witness: a description starting unlike the header name and holding
no dash matches neither pattern; since it mentions datfile the derived
pair is Datfile, and normalization examples on both branches. -/
theorem C9_descriptor_fallback_witness :
    deriveDescriptors ⟨"X", some "my datfile notes", none, none, none, none, none, []⟩ 2
        = { originalDescriptor := "Datfile", normalizedDescriptor := "Datfile" }
    ∧ normalizeDescriptorLabel "Disc Images"
        = (if testDatfile "Disc Images" || testDisc "Disc Images" then "Datfile"
           else "Disc Images") := by
  constructor
  · exact (C9_descriptor_fallback ⟨"X", some "my datfile notes", none, none, none, none,
      none, []⟩ 2).1 (by decide) (by decide)
  · exact (C9_descriptor_fallback ⟨"X", none, none, none, none, none, none, []⟩ 0).2
      "Disc Images"

/-- C10: the sentinel Unknown is itself canonical and a fixed point of
token normalization; a first recognized group that is exactly the Unknown
group yields the region set holding exactly Unknown, wherever it occurs
after an undetected prefix; and under a selection containing Unknown an
entry tagged Unknown is kept while an entry with zero detected regions is
dropped. -/
theorem C10_unknown_is_selectable :
    ("Unknown" ∈ CANONICAL_REGIONS ∧ normalizeRegionToken "Unknown" = some "Unknown")
    ∧ (∀ s t : String, extractRegions s = none →
        extractRegions (s ++ "(Unknown)" ++ t) = some ["Unknown"])
    ∧ ∀ (parsed : ParsedDat) (sel : List String) (g : DatGame),
        "Unknown" ∈ canonicalSelections sel →
        g ∈ parsed.games →
        (g.regions = ["Unknown"] → g ∈ keptGames parsed sel)
        ∧ (g.regions = [] → g ∉ keptGames parsed sel) := by
  refine ⟨⟨by decide, by decide⟩, fun s t h => extractRegions_none_append_unknown s t h, ?_⟩
  intro parsed sel g hsel hg
  have hact : canonicalSelections sel ≠ [] := by
    intro hc
    rw [hc] at hsel
    simp at hsel
  constructor
  · intro hreg
    exact (keptGames_mem_active parsed sel hact g).mpr
      ⟨hg, "Unknown", by rw [hreg]; exact List.mem_singleton_self _, hsel⟩
  · intro hreg hmem
    rcases ((keptGames_mem_active parsed sel hact g).mp hmem).2 with ⟨r, hr, _⟩
    rw [hreg] at hr
    simp at hr

/-- C10 witness: an entry named with an unrecognized group followed by the
Unknown group is tagged Unknown; the Unknown selection keeps the tagged
entry of parsedUnknown and drops its untagged entry. -/
theorem C10_unknown_is_selectable_witness :
    extractRegions ("Game (Beta3)" ++ "(Unknown)" ++ " (En)") = some ["Unknown"]
    ∧ gameUnknown ∈ keptGames parsedUnknown ["Unknown"]
    ∧ gameNone ∉ keptGames parsedUnknown ["Unknown"] := by
  refine ⟨C10_unknown_is_selectable.2.1 "Game (Beta3)" " (En)" (by decide), ?_, ?_⟩
  · exact (C10_unknown_is_selectable.2.2 parsedUnknown ["Unknown"] gameUnknown
      (by decide) (by decide)).1 (by decide)
  · exact (C10_unknown_is_selectable.2.2 parsedUnknown ["Unknown"] gameNone
      (by decide) (by decide)).2 (by decide)


/-- C1 counterexample: the claim says unrecognized selections are silently
dropped and the resulting selected-region set holds only canonical labels,
but the source falls back to the raw string when normalization fails: the
unrecognized selection Gondor survives verbatim into the selected-region
set of a successful filter. -/
theorem C1_counterexample :
    (parseDat docSoloUSA).bind
        (fun d => (filterDatByRegions d ["Gondor", "USA"] "2026-10-12").map
          (fun r => r.summary.selectedRegions)) = Except.ok ["Gondor", "USA"]
    ∧ normalizeRegionToken "Gondor" = none
    ∧ "Gondor" ∉ CANONICAL_REGIONS := by
  decide

/-- C1 (amended): the filter canonicalizes each selected string with the
token normalization of region extraction and deduplicates, but a non-empty
string that normalizes to no canonical label is kept verbatim rather than
dropped (only empty strings are dropped); hence the selected-region set of
a FilterResult consists of canonical labels plus the verbatim unrecognized
non-empty selections. -/
theorem C1_selection_canonicalization :
    ∀ (sel : List String),
      (canonicalSelections sel).Nodup
      ∧ (∀ v ∈ sel, ∀ c, normalizeRegionToken v = some c → c ∈ canonicalSelections sel)
      ∧ (∀ c ∈ canonicalSelections sel,
          c ∈ CANONICAL_REGIONS ∨ (c ∈ sel ∧ normalizeRegionToken c = none ∧ c ≠ ""))
      ∧ ∀ (parsed : ParsedDat) (today : String) (r : FilteredDatResult),
          filterDatByRegions parsed sel today = Except.ok r →
          r.summary.selectedRegions = canonicalSelections sel := by
  intro sel
  refine ⟨canonicalSelections_nodup sel, ?_, ?_, ?_⟩
  · intro v hv c hc
    apply (canonicalSelections_mem sel c).mpr
    refine ⟨fun hce => ?_, v, hv, by rw [hc]; rfl⟩
    have := normalizeRegionToken_mem_canonical hc
    exact canonical_ne_empty c this hce
  · intro c hc
    rcases (canonicalSelections_mem sel c).mp hc with ⟨hcne, v, hv, hgd⟩
    rcases hn : normalizeRegionToken v with _ | c2
    · rw [hn] at hgd
      simp only [Option.getD_none] at hgd
      subst hgd
      exact Or.inr ⟨hv, hn, hcne⟩
    · rw [hn] at hgd
      simp only [Option.getD_some] at hgd
      subst hgd
      exact Or.inl (normalizeRegionToken_mem_canonical hn)
  · intro parsed today r hok
    have hkept : keptGames parsed sel ≠ [] := by
      intro hcon
      rcases (filterDatByRegions_error_iff parsed sel today).mpr hcon with ⟨e, he⟩
      rw [he] at hok
      exact Except.noConfusion hok
    rw [filterDatByRegions_ok parsed sel today hkept] at hok
    cases hok
    rfl

/-- C1 witness: a loose synonym lands as its canonical label, a duplicate
is removed, and the canonicalized selection is what a successful filter
reports. -/
theorem C1_selection_canonicalization_witness :
    "USA" ∈ canonicalSelections ["u.s.a.", "Gondor", "usa"]
    ∧ canonicalSelections ["u.s.a.", "Gondor", "usa"] = ["USA", "Gondor"]
    ∧ resultSoloUSA.summary.selectedRegions = canonicalSelections ["USA"] := by
  refine ⟨?_, by decide, ?_⟩
  · exact (C1_selection_canonicalization ["u.s.a.", "Gondor", "usa"]).2.1
      "u.s.a." (by decide) "USA" (by decide)
  · exact (C1_selection_canonicalization ["USA"]).2.2.2 parsedSoloUSA "2026-10-12"
      resultSoloUSA (by decide)

/-- C2 counterexample: on a parsed document holding an entry with no
detected regions, filtering with the full available-region list (which
then holds the sentinel Unknown) drops that entry, while the empty
selection keeps it, so the two entry counts differ. -/
theorem C2_counterexample :
    (parseDat docMixed).map (fun d => d.availableRegions) = Except.ok ["Unknown", "USA"]
    ∧ (parseDat docMixed).bind
        (fun d => (filterDatByRegions d d.availableRegions "2026-10-12").map
          (fun r => r.summary.filteredGames)) = Except.ok 1
    ∧ (parseDat docMixed).bind
        (fun d => (filterDatByRegions d [] "2026-10-12").map
          (fun r => r.summary.filteredGames)) = Except.ok 2 := by
  decide

/-- C2 (amended): for parsed documents that are non-empty and in which
every entry has at least one detected region, filtering with the full
available-region list yields the same entry count as filtering with the
empty selection, namely the full count. -/
theorem C2_full_selection_eq_empty :
    ∀ (raw : RawVal) (d : ParsedDat) (today : String),
      parseDat raw = Except.ok d →
      d.games ≠ [] →
      (∀ g ∈ d.games, g.regions ≠ []) →
      (filterDatByRegions d d.availableRegions today).map (fun r => r.summary.filteredGames)
          = Except.ok d.games.length
      ∧ (filterDatByRegions d [] today).map (fun r => r.summary.filteredGames)
          = Except.ok d.games.length := by
  intro raw d today hp hne hreg
  obtain ⟨hav, _, _⟩ := parseDat_ok_inv hp
  have hcanon : ∀ x ∈ d.availableRegions, x ∈ CANONICAL_REGIONS := by
    intro x hx
    rw [hav, availableRegionsOf_mem] at hx
    rcases (collectRegionInserts_mem d.games x).mp hx with ⟨g, hg, hxr⟩ | ⟨hxu, _⟩
    · exact parsed_regions_canonical hp g hg x hxr
    · rw [hxu]
      exact List.mem_append_right _ (List.mem_singleton_self _)
  have hnd : d.availableRegions.Nodup := by
    rw [hav]; exact availableRegionsOf_nodup d.games
  have hfix : canonicalSelections d.availableRegions = d.availableRegions :=
    canonicalSelections_fixed _ hnd hcanon
  have hkeepFull : keptGames d d.availableRegions = d.games := by
    unfold keptGames
    rw [hfix]
    by_cases hempty : d.availableRegions = []
    · rw [hempty]
      simp
    · rw [if_pos (by simpa using hempty)]
      rw [List.filter_eq_self]
      intro g hg
      rcases hr : g.regions with _ | ⟨r, rest⟩
      · exact absurd hr (hreg g hg)
      · apply List.any_eq_true.mpr
        refine ⟨r, by simp [hr], ?_⟩
        have hrmem : r ∈ d.availableRegions := by
          rw [hav, availableRegionsOf_mem]
          apply (collectRegionInserts_mem d.games r).mpr
          exact Or.inl ⟨g, hg, by simp [hr]⟩
        simpa using hrmem
  have hkeepEmpty : keptGames d [] = d.games := keptGames_inactive d [] rfl
  constructor
  · rw [filterDatByRegions_ok d d.availableRegions today (by rw [hkeepFull]; exact hne)]
    simp [hkeepFull, Except.map]
  · rw [filterDatByRegions_ok d [] today (by rw [hkeepEmpty]; exact hne)]
    simp [hkeepEmpty, Except.map]

/-- C2 witness: on a two-entry document whose entries are both tagged,
full selection and empty selection both keep both entries. -/
theorem C2_full_selection_eq_empty_witness :
    (filterDatByRegions parsedTwoTagged parsedTwoTagged.availableRegions "2026-10-12").map
        (fun r => r.summary.filteredGames) = Except.ok 2
    ∧ (filterDatByRegions parsedTwoTagged [] "2026-10-12").map
        (fun r => r.summary.filteredGames) = Except.ok 2 :=
  C2_full_selection_eq_empty docTwoTagged parsedTwoTagged "2026-10-12"
    (by decide) (by decide) (by decide)


/-- C3 counterexample: the claim asserts plain lexicographic order and
that the sentinel is present exactly when some entry has zero detected
regions. On docThree the list is not in plain lexicographic order (the
locale comparison used by the code sorts case-insensitively), and Unknown
is present although every entry has a detected region (one entry is
explicitly tagged Unknown). -/
theorem C3_counterexample :
    (parseDat docThree).map (fun d => d.availableRegions)
        = Except.ok ["United Kingdom", "Unknown", "USA"]
    ∧ (parseDat docThree).map (fun d => d.games.map (fun g => g.regions))
        = Except.ok [["USA"], ["United Kingdom"], ["Unknown"]]
    ∧ lexSortPlain ["United Kingdom", "Unknown", "USA"]
        = ["USA", "United Kingdom", "Unknown"]
    ∧ (["United Kingdom", "Unknown", "USA"] : List String)
        ≠ ["USA", "United Kingdom", "Unknown"]
    ∧ "Unknown" ∈ (["United Kingdom", "Unknown", "USA"] : List String) := by
  decide

/-- C3 (amended): the availableRegions list of a parsed document is
duplicate-free, sorted by the locale-aware case-insensitive comparison the
code uses (not plain lexicographic order), and holds exactly the labels
detected in some entry together with the sentinel Unknown when some entry
has zero detected regions (the sentinel also appears when an entry is
explicitly tagged Unknown). -/
theorem C3_availableRegions_characterization :
    ∀ (raw : RawVal) (d : ParsedDat),
      parseDat raw = Except.ok d →
      List.Sorted (fun a b => localeLe a b = true) d.availableRegions
      ∧ d.availableRegions.Nodup
      ∧ ∀ x, x ∈ d.availableRegions ↔
          ((∃ g ∈ d.games, x ∈ g.regions) ∨ (x = "Unknown" ∧ ∃ g ∈ d.games, g.regions = [])) := by
  intro raw d hp
  obtain ⟨hav, _, _⟩ := parseDat_ok_inv hp
  rw [hav]
  refine ⟨availableRegionsOf_sorted d.games, availableRegionsOf_nodup d.games, ?_⟩
  intro x
  rw [availableRegionsOf_mem, collectRegionInserts_mem]
  rfl

/-- C3 witness: on the parse of docThree, the characterization puts USA in
the vocabulary because the first entry carries it, and the list is
duplicate-free. -/
theorem C3_availableRegions_characterization_witness :
    "USA" ∈ parsedThree.availableRegions ∧ parsedThree.availableRegions.Nodup := by
  constructor
  · exact ((C3_availableRegions_characterization docThree parsedThree (by decide)).2.2
      "USA").mpr (Or.inl ⟨⟨"A (USA)", "", "", [], ["USA"]⟩, by decide, by decide⟩)
  · exact (C3_availableRegions_characterization docThree parsedThree (by decide)).2.1

/-- C7: parseDat fails exactly when the datafile root is absent or the
header name field coerces to the empty text (absent header included), and
a successfully parsed document always has a non-empty header name. -/
theorem C7_parse_error_characterization :
    ∀ raw : RawVal,
      ((∃ e, parseDat raw = Except.error e) ↔
        (rootDatafile raw = none ∨
          headerNameText (rootHeaderFields ((rootDatafile raw).getD RawVal.null)) = ""))
      ∧ ∀ d, parseDat raw = Except.ok d → d.header.name ≠ "" := by
  intro raw
  constructor
  · constructor
    · rintro ⟨e, he⟩
      unfold parseDat at he
      rcases hroot : rootDatafile raw with _ | df
      · exact Or.inl rfl
      · simp only [hroot] at he
        right
        simp only [Option.getD_some]
        by_cases htr : jsTruthy df = false
        · have hfields : rootHeaderFields df = [] := by
            cases df <;> simp_all [jsTruthy, rootHeaderFields, objFields] <;> rfl
          rw [hfields]
          rfl
        · rw [if_neg htr] at he
          rcases hnh : normalizeHeader (rootHeaderFields df) with e2 | hdr
          · exact (normalizeHeader_error_iff _).mp ⟨e2, hnh⟩
          · simp only [hnh] at he
            exact Except.noConfusion he
    · intro hdisj
      rcases hroot : rootDatafile raw with _ | df
      · exact ⟨"Invalid DAT: missing <datafile> root node.", by simp [parseDat, hroot]⟩
      · rcases hdisj with habs | hname
        · rw [hroot] at habs
          exact Option.noConfusion habs
        · rw [hroot] at hname
          simp only [Option.getD_some] at hname
          rcases (normalizeHeader_error_iff (rootHeaderFields df)).mpr hname with ⟨e, he⟩
          by_cases htr : jsTruthy df = false
          · exact ⟨"Invalid DAT: missing <datafile> root node.",
              by simp [parseDat, hroot, htr]⟩
          · exact ⟨e, by simp [parseDat, hroot, htr, he]⟩
  · intro d hok
    unfold parseDat at hok
    rcases hroot : rootDatafile raw with _ | df
    · simp only [hroot] at hok
      exact Except.noConfusion hok
    · simp only [hroot] at hok
      by_cases htr : jsTruthy df = false
      · rw [if_pos htr] at hok
        exact Except.noConfusion hok
      · rw [if_neg htr] at hok
        rcases hnh : normalizeHeader (rootHeaderFields df) with e | hdr
        · simp only [hnh] at hok
          exact Except.noConfusion hok
        · simp only [hnh] at hok
          cases hok
          exact normalizeHeader_ok_name hnh

/-- C7 witness: a document whose header lacks a name fails to parse, and
the parse of docSoloUSA has a non-empty header name. -/
theorem C7_parse_error_characterization_witness :
    (∃ e, parseDat (rawObj [("datafile", rawObj [("header", rawObj [])])])
        = Except.error e)
    ∧ parsedSoloUSA.header.name ≠ "" := by
  constructor
  · exact (C7_parse_error_characterization
      (rawObj [("datafile", rawObj [("header", rawObj [])])])).1.mpr (Or.inr (by decide))
  · exact (C7_parse_error_characterization docSoloUSA).2 parsedSoloUSA (by decide)


/-- C6: the derived region set of an entry comes from the detection chain
(name, then description, then the name attribute of the first sub-record)
with first success winning and no merging; within one input the first
parenthesized group with a recognized token determines the whole
(non-empty, duplicate-free, canonical) set, text after a successful input
is never inspected, and the first recognized group after any run of
unrecognized groups decides. -/
theorem C6_region_detection_chain :
    (∀ (rawGame : RawVal),
        (normalizeGame rawGame).regions
          = detectRegions (normalizeGame rawGame).name (normalizeGame rawGame).description
              (normalizeGame rawGame).roms)
    ∧ (∀ (n ds : String) (roms : List DatRom) (rs : List String),
        (extractRegions n = some rs → detectRegions n ds roms = rs)
        ∧ (extractRegions n = none → extractRegions ds = some rs →
            detectRegions n ds roms = rs)
        ∧ (extractRegions n = none → extractRegions ds = none →
            detectRegions n ds roms
              = match roms with
                | [] => []
                | rom0 :: _ => (extractRegions ((rom0.attributes.lookup "name").getD "")).getD []))
    ∧ (∀ (s t : String) (rs : List String),
        extractRegions s = some rs → extractRegions (s ++ t) = some rs)
    ∧ (∀ (s : String) (rs : List String), extractRegions s = some rs →
        rs ≠ [] ∧ rs.Nodup ∧ ∀ x ∈ rs, x ∈ CANONICAL_REGIONS)
    ∧ (∀ (s g : String) (gs1 gs2 : List String) (rs : List String),
        datParenGroups s = gs1 ++ g :: gs2 →
        (∀ g1 ∈ gs1, recognizeGroup g1 = none) →
        recognizeGroup g = some rs →
        extractRegions s = some rs) := by
  refine ⟨fun rawGame => rfl, ?_, ?_, ?_, ?_⟩
  · intro n ds roms rs
    refine ⟨fun h => ?_, fun h1 h2 => ?_, fun h1 h2 => ?_⟩
    · unfold detectRegions
      simp [h, ite_nil_self, ite_isEmpty_self]
    · unfold detectRegions
      simp [h1, h2, ite_nil_self, ite_isEmpty_self]
    · unfold detectRegions
      simp only [h1, h2]
      rcases roms with _ | ⟨rom0, rest⟩
      · rfl
      · simp [ite_nil_self, ite_isEmpty_self]
  · intro s t rs h
    exact extractRegions_append t h
  · intro s rs h
    exact extractRegions_some h
  · intro s g gs1 gs2 rs hgroups hnone hg
    have hs : s ≠ "" := by
      rintro rfl
      have h0 : (gs1 ++ g :: gs2 : List String) = [] :=
        hgroups.symm.trans (rfl : datParenGroups "" = [])
      simp at h0
    unfold extractRegions datParenGroups
    rw [if_neg hs]
    unfold datParenGroups at hgroups
    rw [hgroups, List.findSome?_append, List.findSome?_eq_none_iff.mpr hnone]
    simp [List.findSome?_cons, hg]

/-- C6 witness: the first recognized group of a name decides and later
groups are skipped; an undetected name falls through to the description. -/
theorem C6_region_detection_chain_witness :
    detectRegions "Some Game (Europe) (En,Fr,De)" "ignored (USA)" [] = ["Europe"]
    ∧ extractRegions ("Some Game (Europe)" ++ " (En,Fr,De)") = some ["Europe"]
    ∧ detectRegions "no tags here" "Desc (Japan)" [] = ["Japan"] := by
  refine ⟨?_, ?_, ?_⟩
  · exact (C6_region_detection_chain.2.1 "Some Game (Europe) (En,Fr,De)" "ignored (USA)"
      [] ["Europe"]).1 (by decide)
  · exact C6_region_detection_chain.2.2.1 "Some Game (Europe)" " (En,Fr,De)" ["Europe"]
      (by decide)
  · exact (C6_region_detection_chain.2.1 "no tags here" "Desc (Japan)" [] ["Japan"]).2.1
      (by decide) (by decide)

/-- C8 counterexample: the claim says the rebuilt description embeds the
original descriptor, but when the derived original descriptor is empty the
source substitutes the literal Datfile: on docEmptyDescriptor the parsed
descriptor is empty while the rebuilt description says Datfile. -/
theorem C8_counterexample :
    (parseDat docEmptyDescriptor).map (fun d => d.descriptor) = Except.ok ""
    ∧ (parseDat docEmptyDescriptor).bind
        (fun d => (filterDatByRegions d [] "2026-10-12").map (fun r => r.header.description))
        = Except.ok (some "My System - Datfile (1) (2026-10-12)")
    ∧ "My System - Datfile (1) (2026-10-12)" ≠ "My System -  (1) (2026-10-12)" := by
  decide

/-- C8 (amended): for every successful filter of a parsed document, the
rebuilt display name is the original name followed by the comma-joined
selected regions in parentheses, in selection order (unchanged when no
selection is active), and the description is the decorated name, a dash,
the original descriptor with the literal Datfile substituted when that
descriptor is empty, the filtered count in parentheses, and a version
label in parentheses, the version label being the version field, else the
date field, else the current date. -/
theorem C8_header_rebuild :
    ∀ (raw : RawVal) (d : ParsedDat) (sel : List String) (today : String)
      (r : FilteredDatResult),
      parseDat raw = Except.ok d →
      filterDatByRegions d sel today = Except.ok r →
      r.header.name = (if canonicalSelections sel = [] then d.header.name
        else d.header.name ++ " (" ++ joinComma (canonicalSelections sel) ++ ")")
      ∧ r.header.description = some (r.header.name ++ " - "
          ++ (if d.descriptor = "" then "Datfile" else d.descriptor)
          ++ " (" ++ toString r.summary.filteredGames ++ ") ("
          ++ ((d.header.version <|> d.header.date).getD today) ++ ")") := by
  intro raw d sel today r hp hf
  obtain ⟨_, hvl, _⟩ := parseDat_ok_inv hp
  have hvv : ((d.versionLabel <|> d.header.version <|> d.header.date) : Option String)
      = (d.header.version <|> d.header.date) := by
    rw [hvl]
    cases d.header.version <;> cases d.header.date <;> rfl
  have hkept : keptGames d sel ≠ [] := by
    intro hc
    rcases (filterDatByRegions_error_iff d sel today).mpr hc with ⟨e, he⟩
    rw [he] at hf
    exact Except.noConfusion hf
  rw [filterDatByRegions_ok d sel today hkept] at hf
  cases hf
  constructor
  · by_cases hsel : canonicalSelections sel = []
    · simp [buildFilteredHeader, createRegionLabel, hsel]
    · have hne2 : joinComma (canonicalSelections sel) ≠ "" := by
        apply joinComma_ne_empty _ hsel
        intro x hx
        exact ((canonicalSelections_mem sel x).mp hx).1
      simp [buildFilteredHeader, createRegionLabel, hsel, hne2]
  · simp [buildFilteredHeader, hvv]

/-- C8 witness: on the solo USA document filtered by the USA selection,
the rebuilt name carries the selection parenthetical. -/
theorem C8_header_rebuild_witness :
    resultSoloUSA.header.name
        = (if canonicalSelections ["USA"] = [] then parsedSoloUSA.header.name
           else parsedSoloUSA.header.name ++ " (" ++ joinComma (canonicalSelections ["USA"]) ++ ")")
    ∧ resultSoloUSA.header.name = "X (USA)" := by
  constructor
  · exact (C8_header_rebuild docSoloUSA parsedSoloUSA ["USA"] "2026-10-12" resultSoloUSA
      (by decide) (by decide)).1
  · decide

end DatFilter
